import Mathlib

/-!
Verification of the training-orchestration core of PyTorch-ShuffleNetV2
(src/train.py): a shallow embedding of the per-epoch training loop, the
running mean loss, the fail-fast non-finite-loss abort, weight transfer,
layer freezing, the cosine learning-rate schedule, evaluation, device
selection and the epoch orchestrator, together with theorems settling the
specification claims.
-/

set_option autoImplicit false

namespace ShuffleNetTrain

/-! ## Loss values

A per-batch loss as produced by the loss function: either a finite scalar
(modelled exactly as a rational) or one of the non-finite IEEE values NaN,
plus infinity, minus infinity, which the code tests for with
torch.isfinite at src/train.py line 37. -/

inductive Loss where
  | fin (q : ℚ)
  | nan
  | posInf
  | negInf
deriving DecidableEq, Repr

def Loss.isFinite : Loss → Bool
  | .fin _ => true
  | _ => false

/-! ## train_one_epoch (src/train.py lines 18-44)

The loop body for batch index t does, in order: forward, backward, the
running-mean update mean = (mean * t + loss) / (t + 1), the finiteness
check (printing a warning with the offending value and calling sys.exit(1)
when the loss is not finite), and only then optimizer.step().  The result
is either the final running mean together with the number of optimizer
update steps applied, or an abort carrying the warning text, the offending
loss, the exit code, the number of optimizer steps applied before the
abort, and the index of the offending batch.  The running mean of an
aborted epoch is never returned by the code (the process exits), so the
abort constructor does not carry it. -/

inductive EpochResult where
  | completed (meanLoss : ℚ) (optimizerSteps : ℕ)
  | aborted (warning : String) (offending : Loss) (exitCode : ℕ)
      (optimizerSteps : ℕ) (atBatch : ℕ)
deriving DecidableEq, Repr

def warningMsg : String := "WARNING: non-finite loss, ending training "

def trainOneEpochAux (m : ℚ) (t steps : ℕ) : List Loss → EpochResult
  | [] => .completed m steps
  | .fin q :: ls => trainOneEpochAux ((m * t + q) / (t + 1)) (t + 1) (steps + 1) ls
  | l :: _ => .aborted warningMsg l 1 steps t

def train_one_epoch (losses : List Loss) : EpochResult :=
  trainOneEpochAux 0 0 0 losses

/-- A finite loss sequence, as the list of its rational values. -/
def finLosses (qs : List ℚ) : List Loss := qs.map Loss.fin

/-- The generalized invariant of the incremental mean: starting the
accumulator at value m after t earlier batches, a run over further finite
losses qs ends with mean (m * t + sum qs) / (t + length qs), provided at
least one batch is seen in total, and applies one optimizer step per
batch. -/
theorem trainOneEpochAux_fin (qs : List ℚ) :
    ∀ (m : ℚ) (t steps : ℕ), 0 < t + qs.length →
    trainOneEpochAux m t steps (finLosses qs) =
      .completed ((m * t + qs.sum) / (t + qs.length)) (steps + qs.length) := by
  induction qs with
  | nil =>
    intro m t steps ht
    have htne : t ≠ 0 := by simp at ht; omega
    have ht' : (t : ℚ) ≠ 0 := Nat.cast_ne_zero.mpr htne
    simp only [finLosses, List.map_nil, trainOneEpochAux, List.sum_nil, List.length_nil,
      Nat.cast_zero, add_zero, Nat.add_zero]
    congr 1
    field_simp
  | cons q qs ih =>
    intro m t steps _
    have h1 : (0:ℕ) < (t + 1) + qs.length := by omega
    have h2 : ((t:ℚ) + 1) ≠ 0 := by positivity
    have hstep : trainOneEpochAux m t steps (finLosses (q :: qs)) =
        trainOneEpochAux ((m * t + q) / (t + 1)) (t + 1) (steps + 1) (finLosses qs) := rfl
    rw [hstep, ih ((m * t + q) / (t + 1)) (t + 1) (steps + 1) h1]
    congr 1
    · push_cast [List.sum_cons, List.length_cons]
      rw [div_mul_cancel₀ _ h2]
      ring_nf
    · simp only [List.length_cons]
      omega

/-- C4: on a non-empty epoch of finite losses, the running mean returned at
epoch end equals the arithmetic mean of all the losses, exactly, over
exact arithmetic.  The claim theorem is stated below on train_one_epoch. -/
theorem train_one_epoch_fin (qs : List ℚ) (h : qs ≠ []) :
    train_one_epoch (finLosses qs) =
      .completed (qs.sum / qs.length) qs.length := by
  have hlen : 0 < 0 + qs.length := by
    simp [List.length_pos]
    exact h
  have := trainOneEpochAux_fin qs 0 0 0 hlen
  simpa [train_one_epoch] using this

/-! ## The epoch orchestrator (src/train.py lines 145-158)

For each epoch index the loop runs train_one_epoch, then scheduler.step
(the LambdaLR epoch counter advances from e to e + 1), then evaluate, then
the accuracy report, then torch.save of the full state dict to the fixed
path save_path.  An abort inside train_one_epoch exits the process at once
with the abort exit code, so neither the scheduler step nor the
evaluation nor the checkpoint write of that epoch happens. -/

def save_path : String := "./model_data.pth"

inductive Event where
  | trainStep (epoch : ℕ)
  | schedStep (epoch : ℕ) (newSchedIndex : ℕ)
  | evalStep (epoch : ℕ)
  | report (epoch : ℕ)
  | checkpoint (epoch : ℕ) (path : String)
deriving DecidableEq, Repr

def epochEvents (e : ℕ) : List Event :=
  [.trainStep e, .schedStep e (e + 1), .evalStep e, .report e, .checkpoint e save_path]

/-- The loop from epoch index e with n epochs remaining, returning the
event trace and the process exit code (0 on normal completion, the abort
code when an epoch aborts). -/
def runFrom (batches : ℕ → List Loss) : ℕ → ℕ → List Event × ℕ
  | _, 0 => ([], 0)
  | e, n + 1 =>
    match train_one_epoch (batches e) with
    | .completed _ _ =>
      let r := runFrom batches (e + 1) n
      (epochEvents e ++ r.1, r.2)
    | .aborted _ _ code _ _ => ([.trainStep e], code)

def runTraining (batches : ℕ → List Loss) (epochs : ℕ) : List Event × ℕ :=
  runFrom batches 0 epochs

/-- An epoch all of whose losses are finite runs to completion. -/
theorem trainOneEpochAux_all_finite (ls : List Loss) :
    ∀ (m : ℚ) (t steps : ℕ), ls.all Loss.isFinite = true →
    ∃ mean st, trainOneEpochAux m t steps ls = .completed mean st := by
  induction ls with
  | nil => intro m t steps _; exact ⟨m, steps, rfl⟩
  | cons l ls ih =>
    intro m t steps h
    cases l with
    | fin q =>
      have h' : ls.all Loss.isFinite = true := by simpa [Loss.isFinite] using h
      exact ih ((m * t + q) / (t + 1)) (t + 1) (steps + 1) h'
    | nan => simp [Loss.isFinite] at h
    | posInf => simp [Loss.isFinite] at h
    | negInf => simp [Loss.isFinite] at h

/-- Reaching the first non-finite loss after a finite prefix aborts with
exit code 1, one optimizer step per preceding batch and none for the
offending one. -/
theorem trainOneEpochAux_abort (qs : List ℚ) :
    ∀ (bad : Loss) (rest : List Loss) (m : ℚ) (t steps : ℕ), bad.isFinite = false →
    trainOneEpochAux m t steps (finLosses qs ++ bad :: rest) =
      .aborted warningMsg bad 1 (steps + qs.length) (t + qs.length) := by
  induction qs with
  | nil =>
    intro bad rest m t steps hb
    cases bad with
    | fin q => simp [Loss.isFinite] at hb
    | nan => simp [finLosses, trainOneEpochAux]
    | posInf => simp [finLosses, trainOneEpochAux]
    | negInf => simp [finLosses, trainOneEpochAux]
  | cons q qs ih =>
    intro bad rest m t steps hb
    have hstep : trainOneEpochAux m t steps (finLosses (q :: qs) ++ bad :: rest) =
        trainOneEpochAux ((m * t + q) / (t + 1)) (t + 1) (steps + 1)
          (finLosses qs ++ bad :: rest) := rfl
    rw [hstep, ih bad rest _ _ _ hb]
    have hA : steps + 1 + qs.length = steps + (q :: qs).length := by
      simp only [List.length_cons]; omega
    have hB : t + 1 + qs.length = t + (q :: qs).length := by
      simp only [List.length_cons]; omega
    rw [hA, hB]

/-- C10: a training epoch whose data loader yields zero batches performs
no optimizer update, never reaches the fail-fast check (it completes
rather than aborts), and returns the initial accumulator value 0 as the
running mean. -/
theorem C10_empty_epoch_returns_zero :
    train_one_epoch [] = .completed 0 0 := rfl

/-- C4: the running mean starts at zero, each finite batch updates it by
the incremental-mean recurrence, and on a non-empty epoch of finite
losses the value returned at epoch end is exactly the arithmetic mean of
all the losses of that epoch. -/
theorem C4_running_mean_is_arithmetic_mean (qs : List ℚ) (h : qs ≠ []) :
    (∀ ls : List Loss, train_one_epoch ls = trainOneEpochAux 0 0 0 ls) ∧
    (∀ (m q : ℚ) (t steps : ℕ) (ls : List Loss),
      trainOneEpochAux m t steps (.fin q :: ls) =
        trainOneEpochAux ((m * t + q) / (t + 1)) (t + 1) (steps + 1) ls) ∧
    train_one_epoch (finLosses qs) = .completed (qs.sum / qs.length) qs.length :=
  ⟨fun _ => rfl, fun _ _ _ _ _ => rfl, train_one_epoch_fin qs h⟩

/-- Witness for C4 at the concrete loss list [1, 2, 6], whose arithmetic
mean is 3. -/
theorem C4_witness :
    train_one_epoch (finLosses [1, 2, 6]) = .completed 3 3 := by
  have h := (C4_running_mean_is_arithmetic_mean [1, 2, 6] (by decide)).2.2
  norm_num at h
  convert h using 2

/-- If every epoch before e completes and epoch e aborts, the whole run
exits with the abort code and the trace contains no checkpoint event for
epoch e. -/
theorem runFrom_abort (batches : ℕ → List Loss) (e : ℕ)
    (w : String) (bad : Loss) (code st bt : ℕ)
    (habort : train_one_epoch (batches e) = .aborted w bad code st bt) :
    ∀ (n e0 : ℕ), e0 ≤ e → e < e0 + n →
    (∀ i, e0 ≤ i → i < e → (batches i).all Loss.isFinite = true) →
    (runFrom batches e0 n).2 = code ∧
    ∀ p, Event.checkpoint e p ∉ (runFrom batches e0 n).1 := by
  intro n
  induction n with
  | zero => intro e0 h1 h2 _; omega
  | succ n ih =>
    intro e0 h1 h2 hfin
    rcases Nat.eq_or_lt_of_le h1 with heq | hlt
    · subst heq
      simp [runFrom, habort]
    · obtain ⟨mean, st0, hc⟩ :=
        trainOneEpochAux_all_finite (batches e0) 0 0 0 (hfin e0 le_rfl hlt)
      have hc' : train_one_epoch (batches e0) = .completed mean st0 := hc
      have ihr := ih (e0 + 1) hlt (by omega) (fun i hi1 hi2 => hfin i (by omega) hi2)
      have hrun : runFrom batches e0 (n + 1) =
          (epochEvents e0 ++ (runFrom batches (e0 + 1) n).1,
            (runFrom batches (e0 + 1) n).2) := by
        simp [runFrom, hc']
      rw [hrun]
      refine ⟨ihr.1, ?_⟩
      intro p hp
      simp only [List.mem_append] at hp
      rcases hp with hp | hp
      · have hne : e ≠ e0 := by omega
        simp [epochEvents, hne] at hp
      · exact ihr.2 p hp

/-- C2: a non-finite loss at any batch index aborts the epoch with the
warning text carrying the offending value and exit code 1, with optimizer
updates applied only to the preceding batches and none to the offending
one; the whole run then exits with code 1 and no checkpoint is written
for that epoch; a finite loss instead continues into the optimizer
update for the batch. -/
theorem C2_nonfinite_loss_aborts (qs : List ℚ) (bad : Loss) (rest : List Loss)
    (hbad : bad.isFinite = false) :
    train_one_epoch (finLosses qs ++ bad :: rest) =
      .aborted warningMsg bad 1 qs.length qs.length ∧
    (1 : ℕ) ≠ 0 ∧
    (∀ (m q : ℚ) (t steps : ℕ) (ls : List Loss),
      trainOneEpochAux m t steps (.fin q :: ls) =
        trainOneEpochAux ((m * t + q) / (t + 1)) (t + 1) (steps + 1) ls) ∧
    ∀ (batches : ℕ → List Loss) (epochs e : ℕ), e < epochs →
      (∀ i, i < e → (batches i).all Loss.isFinite = true) →
      batches e = finLosses qs ++ bad :: rest →
      (runTraining batches epochs).2 = 1 ∧
      ∀ p, Event.checkpoint e p ∉ (runTraining batches epochs).1 := by
  have habort : train_one_epoch (finLosses qs ++ bad :: rest) =
      .aborted warningMsg bad 1 qs.length qs.length := by
    have := trainOneEpochAux_abort qs bad rest 0 0 0 hbad
    simpa [train_one_epoch] using this
  refine ⟨habort, by omega, fun _ _ _ _ _ => rfl, ?_⟩
  intro batches epochs e he hfin hbe
  have habort' : train_one_epoch (batches e) =
      .aborted warningMsg bad 1 qs.length qs.length := by rw [hbe]; exact habort
  exact runFrom_abort batches e warningMsg bad 1 qs.length qs.length habort'
    epochs 0 (Nat.zero_le e) (by omega) (fun i _ hi2 => hfin i hi2)

/-- Witness for C2: a finite loss then a NaN on batch index 1 aborts with
exit code 1 after exactly one optimizer step, and the one-epoch run exits
with code 1 without writing the checkpoint. -/
theorem C2_witness :
    Loss.nan.isFinite = false ∧
    train_one_epoch [Loss.fin 1, Loss.nan] =
      .aborted warningMsg Loss.nan 1 1 1 ∧
    (runTraining (fun _ => [Loss.fin 1, Loss.nan]) 1).2 = 1 ∧
    Event.checkpoint 0 save_path ∉ (runTraining (fun _ => [Loss.fin 1, Loss.nan]) 1).1 := by
  have h := C2_nonfinite_loss_aborts [1] Loss.nan [] rfl
  have h4 := h.2.2.2 (fun _ => [Loss.fin 1, Loss.nan]) 1 0 (by omega)
    (fun i hi => absurd hi (Nat.not_lt_zero i)) rfl
  exact ⟨rfl, h.1, h4.1, h4.2 save_path⟩

/-- When every loss of every epoch is finite, the run from epoch e0 over n
epochs produces exactly the per-epoch event blocks in order and exits
with code 0. -/
theorem runFrom_all_finite (batches : ℕ → List Loss) :
    ∀ (n e0 : ℕ),
    (∀ i, e0 ≤ i → i < e0 + n → (batches i).all Loss.isFinite = true) →
    runFrom batches e0 n = ((List.range' e0 n).flatMap epochEvents, 0) := by
  intro n
  induction n with
  | zero => intro e0 _; simp [runFrom]
  | succ n ih =>
    intro e0 hfin
    obtain ⟨mean, st0, hc⟩ :=
      trainOneEpochAux_all_finite (batches e0) 0 0 0 (hfin e0 le_rfl (by omega))
    have hc' : train_one_epoch (batches e0) = .completed mean st0 := hc
    have ihr := ih (e0 + 1) (fun i hi1 hi2 => hfin i (by omega) (by omega))
    simp [runFrom, hc', ihr, List.range'_succ]

/-- C8: over any run in which every epoch's losses are finite, the trace
is exactly, for each epoch index e from 0 to epochs - 1 in order: the
training pass, the scheduler step advancing its counter from e to e + 1,
the evaluation pass, the accuracy report, and the checkpoint write to the
one fixed path; the process then exits with code 0. -/
theorem C8_epoch_orchestration (batches : ℕ → List Loss) (epochs : ℕ)
    (hfin : ∀ i, i < epochs → (batches i).all Loss.isFinite = true) :
    runTraining batches epochs = ((List.range epochs).flatMap epochEvents, 0) := by
  have := runFrom_all_finite batches epochs 0 (fun i _ hi2 => hfin i (by omega))
  simpa [runTraining, List.range_eq_range'] using this

/-- Witness for C8: a one-epoch run over a single finite batch produces
the five events of epoch 0 in order and exits with code 0. -/
theorem C8_witness :
    runTraining (fun _ => [Loss.fin 1]) 1 =
      ([Event.trainStep 0, Event.schedStep 0 1, Event.evalStep 0,
        Event.report 0, Event.checkpoint 0 save_path], 0) := by
  have h := C8_epoch_orchestration (fun _ => [Loss.fin 1]) 1 (fun i _ => rfl)
  simpa [epochEvents] using h

/-! ## The cosine learning-rate schedule (src/train.py line 142)

The lambda handed to LambdaLR: for epoch index x the multiplier is
((1 + cos(x * pi / epochs)) / 2) * (1 - lrf) + lrf. -/

noncomputable def lf (epochs : ℕ) (lrf : ℝ) (x : ℕ) : ℝ :=
  ((1 + Real.cos (x * Real.pi / epochs)) / 2) * (1 - lrf) + lrf

theorem cos_angle_bounds (E e : ℕ) (hE : 1 ≤ E) (he : e < E) :
    -1 < Real.cos (e * Real.pi / E) ∧ Real.cos (e * Real.pi / E) ≤ 1 := by
  have hEpos : (0:ℝ) < E := by exact_mod_cast Nat.lt_of_lt_of_le Nat.zero_lt_one hE
  have heE : (e:ℝ) < E := by exact_mod_cast he
  have hx0 : 0 ≤ (e:ℝ) * Real.pi / E := by positivity
  have hxlt : (e:ℝ) * Real.pi / E < Real.pi := by
    rw [div_lt_iff₀ hEpos]
    calc (e:ℝ) * Real.pi < (E:ℝ) * Real.pi := mul_lt_mul_of_pos_right heE Real.pi_pos
      _ = Real.pi * E := mul_comm _ _
  refine ⟨?_, Real.cos_le_one _⟩
  have hmono := Real.strictAntiOn_cos ⟨hx0, hxlt.le⟩ ⟨Real.pi_pos.le, le_rfl⟩ hxlt
  rw [Real.cos_pi] at hmono
  exact hmono

theorem lf_bounds (E e : ℕ) (lrf : ℝ) (hE : 1 ≤ E) (h1 : lrf < 1) (he : e < E) :
    lrf < lf E lrf e ∧ lf E lrf e ≤ 1 := by
  obtain ⟨hlo, hhi⟩ := cos_angle_bounds E e hE he
  have h2 : (0:ℝ) < 1 - lrf := by linarith
  constructor
  · have hpos : 0 < (1 + Real.cos (e * Real.pi / E)) / 2 := by linarith
    have := mul_pos hpos h2
    simp only [lf]; linarith
  · have hle : (1 + Real.cos (e * Real.pi / E)) / 2 ≤ 1 := by linarith
    have := mul_le_mul_of_nonneg_right hle h2.le
    simp only [lf]; linarith

theorem lf_antitone (E : ℕ) (lrf : ℝ) (h1 : lrf < 1) (hE : 1 ≤ E)
    (e f : ℕ) (hef : e ≤ f) (hf : f < E) :
    lf E lrf f ≤ lf E lrf e := by
  rcases Nat.eq_or_lt_of_le hef with heq | hlt
  · rw [heq]
  · have hEpos : (0:ℝ) < E := by exact_mod_cast Nat.lt_of_lt_of_le Nat.zero_lt_one hE
    have hfE : (f:ℝ) < E := by exact_mod_cast hf
    have hxe0 : 0 ≤ (e:ℝ) * Real.pi / E := by positivity
    have hxfpi : (f:ℝ) * Real.pi / E ≤ Real.pi := by
      rw [div_le_iff₀ hEpos]
      calc (f:ℝ) * Real.pi ≤ (E:ℝ) * Real.pi :=
            mul_le_mul_of_nonneg_right hfE.le Real.pi_pos.le
        _ = Real.pi * E := mul_comm _ _
    have hxef : (e:ℝ) * Real.pi / E < (f:ℝ) * Real.pi / E := by
      have helt : (e:ℝ) < f := by exact_mod_cast hlt
      have : (e:ℝ) * Real.pi < (f:ℝ) * Real.pi :=
        mul_lt_mul_of_pos_right helt Real.pi_pos
      exact div_lt_div_of_pos_right this hEpos
    have hxepi : (e:ℝ) * Real.pi / E ≤ Real.pi := le_of_lt (lt_of_lt_of_le hxef hxfpi)
    have hxf0 : 0 ≤ (f:ℝ) * Real.pi / E := by positivity
    have hcos := Real.strictAntiOn_cos ⟨hxe0, hxepi⟩ ⟨hxf0, hxfpi⟩ hxef
    have h2 : (0:ℝ) ≤ 1 - lrf := by linarith
    have hdiv : (1 + Real.cos ((f:ℝ) * Real.pi / E)) / 2 ≤
        (1 + Real.cos ((e:ℝ) * Real.pi / E)) / 2 := by linarith
    have := mul_le_mul_of_nonneg_right hdiv h2
    simp only [lf]; linarith

/-- C5: for every epoch count E with E at least 1 and floor ratio lrf
strictly between 0 and 1, the multiplier at epoch 0 is exactly 1, at
every epoch index below E it lies strictly above lrf and at most 1, and
over the epoch range the sequence is monotonically non-increasing. -/
theorem C5_lr_multiplier (E : ℕ) (lrf : ℝ) (hE : 1 ≤ E) (h0 : 0 < lrf) (h1 : lrf < 1) :
    lf E lrf 0 = 1 ∧
    (∀ e, e < E → lrf < lf E lrf e ∧ lf E lrf e ≤ 1) ∧
    (1 < E → ∀ e f, e ≤ f → f < E → lf E lrf f ≤ lf E lrf e) := by
  refine ⟨?_, fun e he => lf_bounds E e lrf hE h1 he,
    fun _ e f hef hf => lf_antitone E lrf h1 hE e f hef hf⟩
  simp [lf, Real.cos_zero]

/-- Witness for C5 at E = 2 and lrf = 1/2: the multiplier is 1 at epoch 0,
lies in the half-open interval above 1/2 at epoch 1, and does not
increase from epoch 0 to epoch 1. -/
theorem C5_witness :
    (1:ℕ) ≤ 2 ∧ (0:ℝ) < 1/2 ∧ (1:ℝ)/2 < 1 ∧
    lf 2 (1/2) 0 = 1 ∧ (1/2 < lf 2 (1/2) 1 ∧ lf 2 (1/2) 1 ≤ 1) ∧
    lf 2 (1/2) 1 ≤ lf 2 (1/2) 0 := by
  have h := C5_lr_multiplier 2 (1/2) (by norm_num) (by norm_num) (by norm_num)
  exact ⟨by norm_num, by norm_num, by norm_num, h.1, h.2.1 1 (by norm_num),
    h.2.2 (by norm_num) 0 1 (by norm_num) (by norm_num)⟩

/-! ## Weight transfer (src/train.py lines 123-128)

A parameter is a named numeric array; its element count is the length of
its flattened value list. -/

structure Param where
  name : String
  values : List ℚ
deriving DecidableEq, Repr

def Param.numel (p : Param) : ℕ := p.values.length

/-- The dictionary comprehension at lines 126-127 exactly as written: an
entry (k, v) of pre_weights is kept when pre_weights.state_dict()[k]
has the same element count as v.  The code consults the state dict of the
LOADED object, not of the target net, so the looked-up entry for k is the
source entry itself (granting the loaded object a state-dict view of
itself at all; on a plain saved state dict the attribute access already
fails). -/
def load_weights_dict (pre : List Param) : List Param :=
  pre.filter (fun kv =>
    match pre.find? (fun p => p.name == kv.name) with
    | some p => p.numel == kv.numel
    | none => false)

/-- Module.load_state_dict with strict=False: source keys absent from the
target are ignored and target parameters without a source entry keep
their values, but a source entry whose name matches a target parameter of
a different element count raises a size-mismatch RuntimeError even under
strict=False. -/
def load_state_dict (target src : List Param) : Except String (List Param) :=
  target.mapM (fun tp =>
    match src.find? (fun sp => sp.name == tp.name) with
    | none => .ok tp
    | some sp =>
      if sp.numel == tp.numel then .ok { tp with values := sp.values }
      else .error ("size mismatch for " ++ tp.name))

/-- The weight-transfer path of the code: filter with the comprehension as
written, then load with strict=False. -/
def weightTransferCode (target pre : List Param) : Except String (List Param) :=
  load_state_dict target (load_weights_dict pre)

/-- Modelled from the spec: the WeightTransfer contract of section 4.1 —
keep exactly the source entries whose name exists in the target parameter
set with an equal element count, load those, leave every other target
parameter at its freshly initialized value, and never raise an error. -/
def weightTransferSpec (target pre : List Param) : List Param :=
  let filtered := pre.filter (fun kv =>
    match target.find? (fun tp => tp.name == kv.name) with
    | some tp => tp.numel == kv.numel
    | none => false)
  target.map (fun tp =>
    match filtered.find? (fun sp => sp.name == tp.name) with
    | some sp => { tp with values := sp.values }
    | none => tp)

/-- In a snapshot with unique names, looking a member up by its own name
finds that member. -/
theorem find?_name_self (kv : Param) :
    ∀ (pre : List Param), kv ∈ pre → (pre.map Param.name).Nodup →
    pre.find? (fun p => p.name == kv.name) = some kv := by
  intro pre
  induction pre with
  | nil => intro h _; cases h
  | cons hd tl ih =>
    intro hmem hnd
    simp only [List.map_cons, List.nodup_cons] at hnd
    rcases List.mem_cons.mp hmem with heq | htl
    · subst heq
      exact List.find?_cons_of_pos _ (by simp)
    · have hne : hd.name ≠ kv.name := by
        intro h
        exact hnd.1 (h ▸ List.mem_map_of_mem Param.name htl)
      rw [List.find?_cons_of_neg _ (by simpa using hne)]
      exact ih htl hnd.2

/-- The comprehension as written filters nothing: each source entry is
compared against itself, so the element-count test always passes. -/
theorem load_weights_dict_eq_self (pre : List Param)
    (hnd : (pre.map Param.name).Nodup) : load_weights_dict pre = pre := by
  apply List.filter_eq_self.mpr
  intro kv hkv
  rw [find?_name_self kv pre hkv hnd]
  simp

/-- A fresh two-parameter target whose final layer has 2 elements, and a
source snapshot whose final layer has 3 elements: the exact
class-count-mismatch scenario the spec gives as rationale. -/
def demoTarget : List Param :=
  [⟨"stage2.weight", [1, 2, 3]⟩, ⟨"fc.weight", [10, 20]⟩]

def demoSource : List Param :=
  [⟨"stage2.weight", [4, 5, 6]⟩, ⟨"fc.weight", [7, 8, 9]⟩]

/-- C1: at the mismatched-shape input the filter keeps the mismatched
entry (the element-count test compares the source entry with itself, so
it filters nothing), and the strict=False load then fails with a
size-mismatch error, instead of silently keeping the target's freshly
initialized values as the specified transfer does. -/
theorem C1_weight_transfer_filter_bug :
    load_weights_dict demoSource = demoSource ∧
    weightTransferCode demoTarget demoSource = .error "size mismatch for fc.weight" ∧
    weightTransferSpec demoTarget demoSource =
      [⟨"stage2.weight", [4, 5, 6]⟩, ⟨"fc.weight", [10, 20]⟩] := by
  refine ⟨load_weights_dict_eq_self demoSource (by decide), rfl, by decide⟩

/-! ## Layer freezing (src/train.py lines 129-138) -/

structure NamedParam where
  name : String
  trainable : Bool
deriving DecidableEq, Repr

/-- Containment of a contiguous character pattern, the semantics of the
Python substring test at line 132. -/
def containsSub (pat : List Char) : List Char → Bool
  | [] => pat.isEmpty
  | c :: rest => pat.isPrefixOf (c :: rest) || containsSub pat rest

def containsFC (name : String) : Bool := containsSub "fc".toList name.toList

/-- The freeze loop at lines 130-133: requires_grad_(False) on every
parameter whose name does not contain the marker "fc"; parameters whose
name contains the marker are not touched. -/
def freezeLayers (ps : List NamedParam) : List NamedParam :=
  ps.map (fun p => if containsFC p.name then p else { p with trainable := false })

/-- Line 135: the optimizer parameter group, exactly the parameters whose
requires_grad flag is still set. -/
def pg (ps : List NamedParam) : List NamedParam := ps.filter (·.trainable)

/-- C3: applied to a freshly constructed classifier (all parameters
trainable), the freeze loop leaves a parameter trainable exactly when its
name contains the marker, and the optimizer parameter group consists of
exactly those parameters. -/
theorem C3_freeze_policy (ps : List NamedParam)
    (hfresh : ∀ p ∈ ps, p.trainable = true) :
    (∀ p ∈ freezeLayers ps, p.trainable = containsFC p.name) ∧
    pg (freezeLayers ps) = (freezeLayers ps).filter (fun p => containsFC p.name) := by
  have hmem : ∀ p ∈ freezeLayers ps, p.trainable = containsFC p.name := by
    intro p hp
    simp only [freezeLayers, List.mem_map] at hp
    obtain ⟨q, hq, heq⟩ := hp
    subst heq
    by_cases h : containsFC q.name
    · simp [h, hfresh q hq]
    · simp [h]
  refine ⟨hmem, List.filter_congr ?_⟩
  intro p hp
  simp [hmem p hp]

/-- A three-parameter fresh classifier: a convolution parameter and the
two final-layer parameters. -/
def demoNet : List NamedParam :=
  [⟨"conv1.weight", true⟩, ⟨"fc.weight", true⟩, ⟨"fc.bias", true⟩]

/-- Witness for C3: on the demo classifier the optimizer group is exactly
the two parameters whose name contains the marker. -/
theorem C3_witness :
    pg (freezeLayers demoNet) = [⟨"fc.weight", true⟩, ⟨"fc.bias", true⟩] := by
  have h := C3_freeze_policy demoNet (by decide)
  rw [h.2]
  decide

/-! ## evaluate (src/train.py lines 47-62) -/

/-- Scanning for the index of the first maximal score, the per-sample
semantics of torch.max(pred, dim=1)[1]. -/
def argmaxAux : List ℚ → ℕ → ℕ → ℚ → ℕ
  | [], _, best, _ => best
  | x :: xs, i, best, bestv =>
    if bestv < x then argmaxAux xs (i + 1) i x else argmaxAux xs (i + 1) best bestv

def argmax : List ℚ → ℕ
  | [] => 0
  | x :: xs => argmaxAux xs 1 0 x

/-- The loop body at lines 56-60 for one batch: compare the arg-max class
of each sample's prediction against its label and count the matches. -/
def correctInBatch {α : Type} (model : α → List ℚ) (batch : List (α × ℕ)) : ℕ :=
  (batch.filter (fun s => argmax (model s.1) == s.2)).length

/-- The evaluate function: under torch.no_grad, accumulate the per-batch
correct counts starting from zero; no optimizer step or parameter write
occurs, which the embedding reflects by evaluate being a pure function
from the model. -/
def evaluate {α : Type} (model : α → List ℚ) (batches : List (List (α × ℕ))) : ℕ :=
  batches.foldl (fun acc b => acc + correctInBatch model b) 0

theorem evaluate_foldl {α : Type} (model : α → List ℚ) :
    ∀ (batches : List (List (α × ℕ))) (a : ℕ),
    batches.foldl (fun acc b => acc + correctInBatch model b) a =
      a + (batches.flatten.filter (fun s => argmax (model s.1) == s.2)).length := by
  intro batches
  induction batches with
  | nil => intro a; simp
  | cons b bs ih =>
    intro a
    simp only [List.foldl_cons, List.flatten_cons, List.filter_append, List.length_append]
    rw [ih]
    simp only [correctInBatch]
    omega

/-- C6: evaluate returns the number of validation samples whose arg-max
predicted class equals the true label — with exactly k correct samples
out of n it returns k, and the caller's division yields accuracy k / n. -/
theorem C6_evaluate_counts {α : Type} (model : α → List ℚ)
    (batches : List (List (α × ℕ))) (k n : ℕ)
    (hk : (batches.flatten.filter (fun s => argmax (model s.1) == s.2)).length = k)
    (hn : batches.flatten.length = n) (hn0 : 0 < n) :
    evaluate model batches = k ∧
    (evaluate model batches : ℚ) / (n : ℚ) = (k : ℚ) / (n : ℚ) := by
  have hmain : evaluate model batches = k := by
    rw [← hk]
    simpa [evaluate] using evaluate_foldl model batches 0
  exact ⟨hmain, by rw [hmain]⟩

/-- Witness for C6: a classifier that always favors class 1, over two
batches holding three samples of which exactly two carry label 1. -/
theorem C6_witness :
    evaluate (fun _ : ℕ => [(0:ℚ), 1])
      ([[(0, 1), (1, 0)], [(2, 1)]] : List (List (ℕ × ℕ))) = 2 ∧
    ((evaluate (fun _ : ℕ => [(0:ℚ), 1])
      ([[(0, 1), (1, 0)], [(2, 1)]] : List (List (ℕ × ℕ))) : ℚ) / (3:ℚ) = (2:ℚ) / (3:ℚ)) :=
  C6_evaluate_counts _ _ 2 3 (by decide) (by decide) (by decide)

/-! ## Startup existence checks (src/train.py lines 78 and 123) -/

inductive StartupOutcome where
  | assertionFailure (msg : String)
  | proceeds (weightTransferPerformed : Bool)
deriving DecidableEq, Repr

def StartupOutcome.isError : StartupOutcome → Bool
  | .assertionFailure _ => true
  | .proceeds _ => false

/-- The startup path: line 78 asserts that the dataset root exists, and
line 123 tests os.path.exists on the weights path, performing weight
loading exactly when the test holds and doing nothing otherwise. -/
def startupChecks (dataPathExists weightsPathExists : Bool) : StartupOutcome :=
  if dataPathExists then .proceeds weightsPathExists
  else .assertionFailure "path does not exist"

/-- C7 counterexample: with the dataset root present and the declared
weights path absent, startup raises no error at all — it proceeds with
weight transfer skipped, contradicting the claimed ConfigurationError. -/
theorem C7_counterexample :
    startupChecks true false = .proceeds false ∧
    (startupChecks true false).isError = false := ⟨rfl, rfl⟩

/-- C7 as amended: when the declared pretrained-weights path does not
exist, startup raises no error — WeightTransfer is silently skipped and
training proceeds; weight transfer happens exactly when the path exists,
and only the dataset root is guarded by a startup assertion. -/
theorem C7_amended_missing_weights_skips (w : Bool) :
    (startupChecks true w).isError = false ∧
    startupChecks true w = .proceeds w ∧
    (startupChecks false w).isError = true :=
  ⟨rfl, rfl, rfl⟩

/-! ## Device selection (src/train.py line 115) -/

/-- torch.device(args.device if torch.cuda.is_available() else "cpu"):
the requested identifier is used exactly when the accelerator runtime
reports availability, and the general-purpose device otherwise. -/
def selectDevice (requested : String) (cudaAvailable : Bool) : String :=
  if cudaAvailable then requested else "cpu"

/-- C9: the device actually used is the requested one when the
accelerator is available and the CPU device whenever it is not. -/
theorem C9_device_fallback (requested : String) (cudaAvailable : Bool) :
    (cudaAvailable = true → selectDevice requested cudaAvailable = requested) ∧
    (cudaAvailable = false → selectDevice requested cudaAvailable = "cpu") := by
  constructor <;> intro h <;> simp [selectDevice, h]

/-- Witness for C9 at the default device argument. -/
theorem C9_witness :
    selectDevice "cuda:0" true = "cuda:0" ∧ selectDevice "cuda:0" false = "cpu" :=
  ⟨(C9_device_fallback "cuda:0" true).1 rfl, (C9_device_fallback "cuda:0" false).2 rfl⟩

end ShuffleNetTrain
